import Mathlib

/-!
Shallow embedding of the segmented, resumable download engine in
`src/src-tauri/src/download.rs`.

Machine integers (`u64`) are modelled as `ℕ` with explicit wrapping
(`% MOD`, and `wsub` for wrapping subtraction) at the arithmetic sites of
the source where under/overflow can occur.  Filesystem and registry
effects are made explicit: the aggregator loop returns the list of
state-file writes/removals it performs, and the token table is an
association list with hash-map insert/remove semantics.
-/

namespace Download

/-- `2^64`, the modulus of `u64` arithmetic. -/
def MOD : ℕ := 2 ^ 64

/-- Wrapping `u64` subtraction `a.wrapping_sub b` for `a, b < MOD`. -/
def wsub (a b : ℕ) : ℕ := (a % MOD + (MOD - b % MOD)) % MOD

/-- `SegmentState { start, end, downloaded }` (download.rs lines 23-28). -/
structure SegmentState where
  start : ℕ
  «end» : ℕ
  downloaded : ℕ
deriving DecidableEq

/-- `DownloadState` (download.rs lines 31-39). -/
structure DownloadState where
  id : String
  url : String
  output : String
  total_size : ℕ
  concurrency : ℕ
  segments : List SegmentState
deriving DecidableEq

/-- `DownloadState::state_file`: `format!("{}.state", &self.output)`. -/
def DownloadState.state_file (s : DownloadState) : String :=
  s.output ++ ".state"

/-- `let part = total / concurrency as u64` (download.rs line 90). -/
def part (total concurrency : ℕ) : ℕ := total / concurrency

/-- `let start = i as u64 * part` (download.rs line 93), with `u64` wrap. -/
def segStart (p i : ℕ) : ℕ := i * p % MOD

/-- `let end = if i==concurrency-1 { total-1 } else { (i as u64+1)*part - 1 }`
(download.rs line 94), with `u64` wrapping subtraction. -/
def segEnd (total concurrency p i : ℕ) : ℕ :=
  if i = concurrency - 1 then wsub total 1 else wsub ((i + 1) * p % MOD) 1

/-- The fresh-plan partition loop `for i in 0..concurrency` (lines 92-96). -/
def buildSegments (total concurrency : ℕ) : List SegmentState :=
  (List.range concurrency).map fun i =>
    { start := segStart (part total concurrency) i
      «end» := segEnd total concurrency (part total concurrency) i
      downloaded := 0 }

/-- The fresh `DownloadState` built at line 97 (`concurrency = 8`). -/
def freshState (id url output : String) (total : ℕ) : DownloadState :=
  { id := id, url := url, output := output, total_size := total
    concurrency := 8, segments := buildSegments total 8 }

/-- The HEAD probe (lines 77-87): the `Content-Length` header is either
absent (`.ok_or("无 Content-Length")` produces this error) or a length. -/
def probeTotal (contentLength : Option ℕ) : Except String ℕ :=
  match contentLength with
  | none => Except.error "无 Content-Length"
  | some n => Except.ok n

/-- Outcome of the load-or-initialise step: the `.unwrap()` at line 87
turns an `Err` of the probe into a panic instead of a returned error. -/
inductive InitResult
  | panic (msg : String)
  | ok (s : DownloadState)
deriving DecidableEq

/-- Lines 73-98: `DownloadState::load(&output).unwrap_or_else(|| ...)`.
`persisted` is the parsed content of the state file when it exists. -/
def initState (persisted : Option DownloadState) (contentLength : Option ℕ)
    (id url output : String) : InitResult :=
  match persisted with
  | some s => InitResult.ok s
  | none =>
    match probeTotal contentLength with
    | Except.error e => InitResult.panic e
    | Except.ok total => InitResult.ok (freshState id url output total)

/-! ## Segment fetcher (download.rs lines 125-148) -/

/-- One iteration of the fetcher's `select!` race: the cancellation signal
fires, the stream ends (`stream.next()` returns `None`), or a chunk
arrives — either a transport error or a chunk of the given byte length. -/
inductive StreamEv
  | cancelFired
  | streamEnd
  | chunk (c : Except String ℕ)

/-- The fetcher's `while let` loop (lines 139-146): `pos` is the current
file position (set by the initial seek), `downloaded` the running count.
Returns the write trace (offset, length) and the task's result. -/
def fetchLoop (pos downloaded : ℕ) :
    List StreamEv → List (ℕ × ℕ) × Except String ℕ
  | [] => ([], Except.ok downloaded)
  | StreamEv.cancelFired :: _ => ([], Except.ok downloaded)
  | StreamEv.streamEnd :: _ => ([], Except.ok downloaded)
  | StreamEv.chunk (Except.error e) :: _ => ([], Except.error e)
  | StreamEv.chunk (Except.ok len) :: rest =>
    let r := fetchLoop (pos + len) (downloaded + len) rest
    ((pos, len) :: r.1, r.2)

/-- The `Range` header values of line 128: `bytes={from}-{to}`. -/
structure RangeRequest where
  fromByte : ℕ
  toByte : ℕ
deriving DecidableEq

/-- `format!("bytes={}-{}", seg_copy.start + downloaded, seg_copy.end)`
with `downloaded = seg_copy.downloaded` (lines 126-128). -/
def segmentRequest (seg : SegmentState) : RangeRequest :=
  { fromByte := seg.start + seg.downloaded, toByte := seg.«end» }

/-- One spawned segment task (lines 125-148): issue the ranged GET
(`respResult` is `send()`'s outcome), open the output file (`openResult`),
seek to `start + downloaded`, then run the receive loop.  Returns the
request, the write trace, and the task's `Result<u64, String>`. -/
def runSegment (seg : SegmentState) (respResult openResult : Except String Unit)
    (evs : List StreamEv) : RangeRequest × List (ℕ × ℕ) × Except String ℕ :=
  match respResult with
  | Except.error e => (segmentRequest seg, [], Except.error e)
  | Except.ok _ =>
    match openResult with
    | Except.error e => (segmentRequest seg, [], Except.error e)
    | Except.ok _ =>
      let r := fetchLoop (seg.start + seg.downloaded) seg.downloaded evs
      (segmentRequest seg, r.1, r.2)

/-! ## Progress aggregator (download.rs lines 152-186) -/

/-- What the aggregator observes in one loop iteration: whether the token
is cancelled, the `now_or_never` poll of each segment task (`none` while
still running, one entry per segment handle), and the outcome a
`state.save()` would have (the filesystem's behaviour). -/
structure Obs where
  cancelled : Bool
  results : List (Option (Except String ℕ))
  saveResult : Except String Unit

/-- `if let Ok(Some(Ok(d))) = h.now_or_never() { segments[i].downloaded = d }`
(lines 159-161): only a successfully finished task updates the count;
a pending poll or an errored task leaves the previous value. -/
def adopt (seg : SegmentState) (r : Option (Except String ℕ)) : SegmentState :=
  match r with
  | some (Except.ok d) => { seg with downloaded := d }
  | _ => seg

/-- The per-handle update pass of lines 158-163 (one result per segment;
in `download` the handle list and the segment list have equal length). -/
def updateSegs : List SegmentState → List (Option (Except String ℕ)) →
    List SegmentState
  | segs, [] => segs
  | [], _ :: _ => []
  | seg :: segs, r :: rs => adopt seg r :: updateSegs segs rs

/-- `total_dl`, the sum of all segments' recorded `downloaded` counts. -/
def sumDownloaded (segs : List SegmentState) : ℕ :=
  (segs.map SegmentState.downloaded).sum

/-- A state-file effect performed by `download`. -/
inductive FsEvent
  | save (s : DownloadState)
  | removeState (f : String)
deriving DecidableEq

/-- The aggregator loop (lines 152-186) over a finite observation trace.
Returns `(outcome, state-file events, final aggregator state)`; the
outcome is `none` when the trace runs out with the loop still going,
`some (Except.error m)` when `download` returns `Err(m)` from inside the
loop, and `some (Except.ok ())` when the loop breaks on completion and
`download` removes the state file and returns `Ok(())`. -/
def aggLoop : DownloadState → List Obs →
    Option (Except String Unit) × List FsEvent × DownloadState
  | st, [] => (none, [], st)
  | st, obs :: rest =>
    if obs.cancelled then
      match obs.saveResult with
      | Except.ok _ => (some (Except.error "Paused"), [FsEvent.save st], st)
      | Except.error e => (some (Except.error e), [], st)
    else
      if st.total_size ≤
          sumDownloaded (updateSegs st.segments obs.results) then
        (some (Except.ok ()),
         [FsEvent.removeState
            { st with segments := updateSegs st.segments obs.results }.state_file],
         { st with segments := updateSegs st.segments obs.results })
      else aggLoop { st with segments := updateSegs st.segments obs.results } rest

/-! ## Session registry (download.rs lines 17-20, 101-102, 190-195) -/

/-- The `TOKENS` table: id → token, hash-map semantics on an assoc list. -/
abbrev Registry := List (String × ℕ)

def hmLookup (k : String) (m : Registry) : Option ℕ :=
  (m.find? fun p => p.1 == k).map Prod.snd

/-- `HashMap::insert`: replaces any previous binding of the key. -/
def hmInsert (k : String) (v : ℕ) (m : Registry) : Registry :=
  (k, v) :: m.filter fun p => !(p.1 == k)

/-- The token table plus the set of tokens on which `cancel()` was
called, so that "signals the handle" is observable in the model. -/
structure TokensState where
  tokens : Registry
  cancelledTokens : List ℕ
deriving DecidableEq

/-- `cancel_download` (lines 190-195): remove the id's token if present
and signal it; absent ids are a no-op. -/
def cancel_download (id : String) (st : TokensState) : TokensState :=
  match hmLookup id st.tokens with
  | some tok =>
    { tokens := st.tokens.filter fun p => !(p.1 == id)
      cancelledTokens := tok :: st.cancelledTokens }
  | none => st

/-! ## The whole `download` command -/

/-- Result of one `download(app, id, url, output)` invocation:
either the init step panicked (the `.unwrap()` at line 87), or the
command ran, with its outcome, its state-file events, the token table
after the run, and the final aggregator state. -/
inductive RunResult
  | panic (msg : String)
  | done (outcome : Option (Except String Unit)) (evs : List FsEvent)
      (tokens : Registry) (finalState : DownloadState)

/-- `download` (lines 71-187): load-or-init, install the fresh
cancellation token into `TOKENS` (line 102), spawn the fetchers, and run
the aggregator loop.  No step of `download` ever removes the id's entry
from `TOKENS`. -/
def downloadRun (persisted : Option DownloadState) (contentLength : Option ℕ)
    (id url output : String) (freshTok : ℕ) (tokens : Registry)
    (obss : List Obs) : RunResult :=
  match initState persisted contentLength id url output with
  | InitResult.panic m => RunResult.panic m
  | InitResult.ok st0 =>
    let tokens' := hmInsert id freshTok tokens
    let r := aggLoop st0 obss
    RunResult.done r.1 r.2.1 tokens' r.2.2

/-! ## Filesystem model for the state file -/

/-- The directory holding state files: path → parsed `DownloadState`. -/
abbrev Fs := List (String × DownloadState)

def fsWrite (f : String) (s : DownloadState) (fs : Fs) : Fs :=
  (f, s) :: fs.filter fun p => !(p.1 == f)

def fsRemove (f : String) (fs : Fs) : Fs :=
  fs.filter fun p => !(p.1 == f)

def fsLookup (f : String) (fs : Fs) : Option DownloadState :=
  (fs.find? fun p => p.1 == f).map Prod.snd

/-- Apply `download`'s state-file events to the filesystem: `save` writes
`{output}.state` (line 46, `File::create` + `to_writer`), `removeState`
deletes the named file (line 185). -/
def applyFs (fs : Fs) : List FsEvent → Fs
  | [] => fs
  | FsEvent.save s :: rest => applyFs (fsWrite s.state_file s fs) rest
  | FsEvent.removeState f :: rest => applyFs (fsRemove f fs) rest

/-- `DownloadState::load(output)` (lines 50-58): read `{output}.state`. -/
def DownloadState.load (output : String) (fs : Fs) : Option DownloadState :=
  fsLookup (output ++ ".state") fs

/-! ## Derived plan predicates -/

/-- The segments are pairwise disjoint byte ranges. -/
def segsDisjoint (segs : List SegmentState) : Prop :=
  segs.Pairwise fun a b => a.«end» < b.start ∨ b.«end» < a.start

instance (segs : List SegmentState) : Decidable (segsDisjoint segs) := by
  unfold segsDisjoint; infer_instance

/-- The union of the (inclusive) segment ranges is exactly `[0, total)`. -/
def covers (segs : List SegmentState) (total : ℕ) : Prop :=
  ∀ b, b < total ↔ ∃ s ∈ segs, s.start ≤ b ∧ b ≤ s.«end»

end Download

namespace Download

/-! ## Helper lemmas -/

theorem find_filter_beq_none {α : Type} (f : String) (l : List (String × α)) :
    (l.filter fun p => !(p.1 == f)).find? (fun p => p.1 == f) = none := by
  induction l with
  | nil => rfl
  | cons p l ih =>
    by_cases h : (p.1 == f) = true
    · simp [List.filter_cons, h, ih]
    · simp only [Bool.not_eq_true] at h
      simp [List.filter_cons, h, List.find?, ih]

theorem hmLookup_filter_self (f : String) (l : Registry) :
    hmLookup f (l.filter fun p => !(p.1 == f)) = none := by
  unfold hmLookup
  rw [find_filter_beq_none]
  rfl

theorem fsLookup_remove_self (f : String) (fs : Fs) :
    fsLookup f (fsRemove f fs) = none := by
  unfold fsLookup fsRemove
  rw [find_filter_beq_none]
  rfl

/-! ## C3 -/

/-- C3: with no persisted state and a metadata probe that reports no
`Content-Length`, the init step does not surface the
`无 Content-Length` error as `start()`'s error result: the `.unwrap()`
panics instead, aborting the command task. -/
theorem missing_content_length_panics :
    initState none none "dl" "http://h/f" "out.bin" =
      InitResult.panic "无 Content-Length" := rfl

/-! ## C7 -/

theorem cancel_download_absent (id : String) (st : TokensState)
    (h : hmLookup id st.tokens = none) : cancel_download id st = st := by
  unfold cancel_download
  rw [h]

/-- C7: `cancel_download` is idempotent: on an absent id it is a no-op
(and never errors — it is a total function into `TokensState`); on a
present id it removes the handle, signals it exactly once, and a repeat
call is a no-op. -/
theorem cancel_download_idempotent :
    (∀ id st, hmLookup id st.tokens = none → cancel_download id st = st) ∧
    (∀ id st tok, hmLookup id st.tokens = some tok →
      (cancel_download id st).tokens =
        st.tokens.filter (fun p => !(p.1 == id)) ∧
      (cancel_download id st).cancelledTokens = tok :: st.cancelledTokens ∧
      hmLookup id (cancel_download id st).tokens = none ∧
      cancel_download id (cancel_download id st) = cancel_download id st) := by
  refine ⟨cancel_download_absent, ?_⟩
  intro id st tok h
  have htoks : (cancel_download id st).tokens =
      st.tokens.filter (fun p => !(p.1 == id)) := by
    unfold cancel_download
    rw [h]
  have hcs : (cancel_download id st).cancelledTokens =
      tok :: st.cancelledTokens := by
    unfold cancel_download
    rw [h]
  have hnone : hmLookup id (cancel_download id st).tokens = none := by
    rw [htoks]; exact hmLookup_filter_self id st.tokens
  exact ⟨htoks, hcs, hnone, cancel_download_absent id _ hnone⟩

/-- Witness for C7 at a concrete registry. -/
theorem cancel_download_idempotent_witness :
    cancel_download "x" ⟨[("a", 7)], []⟩ = ⟨[("a", 7)], []⟩ ∧
    (cancel_download "a" ⟨[("a", 7)], []⟩).cancelledTokens = [7] ∧
    hmLookup "a" (cancel_download "a" ⟨[("a", 7)], []⟩).tokens = none :=
  ⟨cancel_download_idempotent.1 "x" ⟨[("a", 7)], []⟩ (by decide),
   (cancel_download_idempotent.2 "a" ⟨[("a", 7)], []⟩ 7 (by decide)).2.1,
   (cancel_download_idempotent.2 "a" ⟨[("a", 7)], []⟩ 7 (by decide)).2.2.1⟩

/-! ## C10 -/

/-- C10: for `1 ≤ total < 8` the fresh plan computes `part = 0`, so every
non-final segment's end offset `(i+1)*part - 1` wraps below zero to
`2^64 - 1`, and for `total = 0` the final segment's `total - 1` wraps
likewise: the partition is unsafe for files smaller than 8 bytes. -/
theorem small_total_plan_underflows (total : ℕ) (_h1 : 1 ≤ total)
    (h8 : total < 8) :
    part total 8 = 0 ∧
    (∀ i, i < 7 → segEnd total 8 (part total 8) i = MOD - 1) ∧
    segEnd 0 8 (part 0 8) 7 = MOD - 1 := by
  have hp : part total 8 = 0 := Nat.div_eq_of_lt h8
  refine ⟨hp, ?_, by decide⟩
  intro i hi
  have hne : i ≠ 8 - 1 := by omega
  rw [hp]
  unfold segEnd wsub MOD
  rw [if_neg hne]
  norm_num

/-- Witness for C10 at `total = 3`. -/
theorem small_total_plan_underflows_witness :
    part 3 8 = 0 ∧ segEnd 3 8 (part 3 8) 0 = MOD - 1 :=
  ⟨(small_total_plan_underflows 3 (by decide) (by decide)).1,
   (small_total_plan_underflows 3 (by decide) (by decide)).2.1 0 (by decide)⟩

end Download

namespace Download

/-! ## C4 -/

theorem fetchLoop_first_write (evs : List StreamEv) (pos d o l : ℕ)
    (tl : List (ℕ × ℕ)) (h : (fetchLoop pos d evs).1 = (o, l) :: tl) :
    o = pos := by
  cases evs with
  | nil => exact absurd h (by simp [fetchLoop])
  | cons ev rest =>
    cases ev with
    | cancelFired => exact absurd h (by simp [fetchLoop])
    | streamEnd => exact absurd h (by simp [fetchLoop])
    | chunk c =>
      cases c with
      | error e => exact absurd h (by simp [fetchLoop])
      | ok len =>
        simp only [fetchLoop] at h
        exact ((Prod.mk.injEq _ _ _ _).mp (List.cons.injEq _ _ _ _ ▸ h).1).1.symm

/-- C4: a segment task requests exactly the byte range
`[start + downloaded, end]`, and if it writes at all, its first write is
at file offset `start + downloaded` (the seek target). -/
theorem segment_resumes_after_downloaded (seg : SegmentState)
    (respResult openResult : Except String Unit) (evs : List StreamEv)
    (req : RangeRequest) (writes : List (ℕ × ℕ)) (res : Except String ℕ)
    (h : runSegment seg respResult openResult evs = (req, writes, res)) :
    req.fromByte = seg.start + seg.downloaded ∧
    req.toByte = seg.«end» ∧
    ∀ o l tl, writes = (o, l) :: tl → o = seg.start + seg.downloaded := by
  unfold runSegment at h
  cases respResult with
  | error e =>
    simp only [Prod.mk.injEq] at h
    obtain ⟨h1, h2, h3⟩ := h
    subst h1; subst h2
    exact ⟨rfl, rfl, fun o l tl hw => absurd hw (by simp)⟩
  | ok u =>
    cases openResult with
    | error e =>
      simp only [Prod.mk.injEq] at h
      obtain ⟨h1, h2, h3⟩ := h
      subst h1; subst h2
      exact ⟨rfl, rfl, fun o l tl hw => absurd hw (by simp)⟩
    | ok u2 =>
      simp only [Prod.mk.injEq] at h
      obtain ⟨h1, h2, h3⟩ := h
      subst h1; subst h2
      exact ⟨rfl, rfl, fun o l tl hw => fetchLoop_first_write evs _ _ o l tl hw⟩

/-- Witness for C4: a resumed segment `{start := 10, end := 19,
downloaded := 4}` asks for bytes 14-19 and first writes at offset 14. -/
theorem segment_resumes_after_downloaded_witness :
    (⟨14, 19⟩ : RangeRequest).fromByte = 10 + 4 ∧
    (⟨14, 19⟩ : RangeRequest).toByte = (⟨10, 19, 4⟩ : SegmentState).«end» ∧
    ∀ o l tl, [((14 : ℕ), (3 : ℕ))] = (o, l) :: tl → o = 10 + 4 :=
  segment_resumes_after_downloaded ⟨10, 19, 4⟩ (Except.ok ()) (Except.ok ())
    [StreamEv.chunk (Except.ok 3)] ⟨14, 19⟩ [(14, 3)] (Except.ok 7) rfl

/-! ## C5 -/

/-- C5: when the aggregator observes the cancellation signal and the
state write succeeds, it saves the current per-segment snapshot as the
persisted state (loadable from the written file) and `download` returns
`Err("Paused")`. -/
theorem cancellation_saves_and_returns_paused (st : DownloadState)
    (obs : Obs) (rest : List Obs) (hc : obs.cancelled = true)
    (hs : obs.saveResult = Except.ok ()) :
    aggLoop st (obs :: rest) =
      (some (Except.error "Paused"), [FsEvent.save st], st) ∧
    ∀ fs, DownloadState.load st.output (applyFs fs [FsEvent.save st]) =
      some st := by
  constructor
  · unfold aggLoop
    rw [hc, hs]
    rfl
  · intro fs
    unfold DownloadState.load applyFs fsLookup fsWrite DownloadState.state_file
    simp [List.find?]

/-- Witness for C5 at a concrete cancelled iteration. -/
theorem cancellation_saves_and_returns_paused_witness :
    aggLoop ⟨"d", "u", "o", 100, 1, [⟨0, 99, 40⟩]⟩
        [⟨true, [], Except.ok ()⟩] =
      (some (Except.error "Paused"),
       [FsEvent.save ⟨"d", "u", "o", 100, 1, [⟨0, 99, 40⟩]⟩],
       ⟨"d", "u", "o", 100, 1, [⟨0, 99, 40⟩]⟩) ∧
    DownloadState.load "o"
        (applyFs [] [FsEvent.save ⟨"d", "u", "o", 100, 1, [⟨0, 99, 40⟩]⟩]) =
      some ⟨"d", "u", "o", 100, 1, [⟨0, 99, 40⟩]⟩ :=
  ⟨(cancellation_saves_and_returns_paused _ _ _ rfl rfl).1,
   (cancellation_saves_and_returns_paused ⟨"d", "u", "o", 100, 1, [⟨0, 99, 40⟩]⟩
      ⟨true, [], Except.ok ()⟩ [] rfl rfl).2 []⟩

/-! ## C6 -/

/-- C6: when the summed downloaded count reaches `total_size` in an
iteration without cancellation, the loop exits successfully, the state
file is removed (so a reload of it yields nothing), and a later start
with no persisted state builds a fresh plan from the probe. -/
theorem completion_removes_state_file (st : DownloadState) (obs : Obs)
    (rest : List Obs) (hc : obs.cancelled = false)
    (hdone : st.total_size ≤ sumDownloaded (updateSegs st.segments obs.results)) :
    aggLoop st (obs :: rest) =
      (some (Except.ok ()), [FsEvent.removeState st.state_file],
       { st with segments := updateSegs st.segments obs.results }) ∧
    (∀ fs, DownloadState.load st.output
        (applyFs fs [FsEvent.removeState st.state_file]) = none) ∧
    (∀ L i u o, initState none (some L) i u o =
        InitResult.ok (freshState i u o L)) := by
  refine ⟨?_, ?_, fun L i u o => rfl⟩
  · unfold aggLoop
    rw [hc]
    simp only [Bool.false_eq_true, if_false, if_pos hdone]
    rfl
  · intro fs
    unfold DownloadState.load applyFs DownloadState.state_file
    exact fsLookup_remove_self (st.output ++ ".state") fs

/-- Witness for C6 at a concrete completing iteration. -/
theorem completion_removes_state_file_witness :
    aggLoop ⟨"d", "u", "o", 10, 1, [⟨0, 9, 0⟩]⟩
        [⟨false, [some (Except.ok 10)], Except.ok ()⟩] =
      (some (Except.ok ()), [FsEvent.removeState "o.state"],
       ⟨"d", "u", "o", 10, 1, [⟨0, 9, 10⟩]⟩) ∧
    DownloadState.load "o"
        (applyFs [("o.state", ⟨"d", "u", "o", 10, 1, [⟨0, 9, 0⟩]⟩)]
          [FsEvent.removeState "o.state"]) = none :=
  ⟨(completion_removes_state_file ⟨"d", "u", "o", 10, 1, [⟨0, 9, 0⟩]⟩
      ⟨false, [some (Except.ok 10)], Except.ok ()⟩ [] rfl (by decide)).1,
   (completion_removes_state_file ⟨"d", "u", "o", 10, 1, [⟨0, 9, 0⟩]⟩
      ⟨false, [some (Except.ok 10)], Except.ok ()⟩ [] rfl (by decide)).2.1
     [("o.state", ⟨"d", "u", "o", 10, 1, [⟨0, 9, 0⟩]⟩)]⟩

end Download

namespace Download

/-! ## C1 -/

/-- C1 counterexample: in a run whose single segment task has completed
with a transport error, the aggregator's pattern match silently discards
the error: the iteration produces no outcome (outcome `none` — the loop
just continues), performs no state-file effect, and leaves the segment's
count unchanged, instead of returning a Failed result. -/
theorem segment_error_is_swallowed_cex :
    aggLoop ⟨"d", "u", "o", 100, 1, [⟨0, 99, 0⟩]⟩
        [⟨false, [some (Except.error "connection reset")], Except.ok ()⟩] =
      (none, [], ⟨"d", "u", "o", 100, 1, [⟨0, 99, 0⟩]⟩) := rfl

/-- C1 (amended): a segment task error never terminates the download
attempt — any run of the aggregator loop that returns an `Err` outcome
does so only because cancellation was observed in some iteration
(yielding `"Paused"`, or the save error when the snapshot write fails);
segment errors are ignored and the loop continues. -/
theorem error_outcome_only_from_cancellation (st : DownloadState)
    (obss : List Obs) (m : String) (evs : List FsEvent) (fin : DownloadState)
    (h : aggLoop st obss = (some (Except.error m), evs, fin)) :
    ∃ obs ∈ obss, obs.cancelled = true := by
  induction obss generalizing st with
  | nil => exact absurd h (by simp [aggLoop])
  | cons obs rest ih =>
    simp only [aggLoop] at h
    split at h
    · next hc => exact ⟨obs, List.mem_cons_self _ _, hc⟩
    · split at h
      · exact absurd h (by simp)
      · obtain ⟨o, hm, hcc⟩ := ih _ h
        exact ⟨o, List.mem_cons_of_mem _ hm, hcc⟩

/-- Witness for the amended C1 at a concrete cancelled run. -/
theorem error_outcome_only_from_cancellation_witness :
    ∃ obs ∈ [(⟨true, [], Except.ok ()⟩ : Obs)], obs.cancelled = true :=
  error_outcome_only_from_cancellation ⟨"d", "u", "o", 100, 1, [⟨0, 99, 0⟩]⟩
    [⟨true, [], Except.ok ()⟩] "Paused"
    [FsEvent.save ⟨"d", "u", "o", 100, 1, [⟨0, 99, 0⟩]⟩]
    ⟨"d", "u", "o", 100, 1, [⟨0, 99, 0⟩]⟩ rfl

end Download

namespace Download

/-! ## C8 -/

theorem aggLoop_events_classified (st : DownloadState) (obss : List Obs)
    (out : Option (Except String Unit)) (evs : List FsEvent)
    (fin : DownloadState) (h : aggLoop st obss = (out, evs, fin)) :
    evs = [] ∨
    (∃ s, evs = [FsEvent.save s] ∧ out = some (Except.error "Paused")) ∨
    (evs = [FsEvent.removeState fin.state_file] ∧
      out = some (Except.ok ())) := by
  induction obss generalizing st with
  | nil =>
    simp only [aggLoop, Prod.mk.injEq] at h
    exact Or.inl h.2.1.symm
  | cons obs rest ih =>
    simp only [aggLoop] at h
    split at h
    · cases hs : obs.saveResult with
      | ok u =>
        rw [hs] at h
        simp only [Prod.mk.injEq] at h
        exact Or.inr (Or.inl ⟨st, h.2.1.symm, h.1.symm⟩)
      | error e =>
        rw [hs] at h
        simp only [Prod.mk.injEq] at h
        exact Or.inl h.2.1.symm
    · split at h
      · simp only [Prod.mk.injEq] at h
        refine Or.inr (Or.inr ⟨?_, h.1.symm⟩)
        rw [← h.2.2]
        exact h.2.1.symm
      · exact ih _ h

/-- C8 counterexample: the very first start of a fresh plan (no persisted
state; probe reports 8 bytes) that runs to completion performs no `save`
at all — the state file is never created at fresh-plan start; the only
state-file effect of the run is the final removal. -/
theorem state_file_not_created_at_fresh_start_cex :
    downloadRun none (some 8) "dl" "u" "o" 1 []
        [⟨false, List.replicate 8 (some (Except.ok 1)), Except.ok ()⟩] =
      RunResult.done (some (Except.ok ())) [FsEvent.removeState "o.state"]
        [("dl", 1)]
        ⟨"dl", "u", "o", 8, 8,
         [⟨0, 0, 1⟩, ⟨1, 1, 1⟩, ⟨2, 2, 1⟩, ⟨3, 3, 1⟩,
          ⟨4, 4, 1⟩, ⟨5, 5, 1⟩, ⟨6, 6, 1⟩, ⟨7, 7, 1⟩]⟩ := rfl

/-- C8 (amended): the state file is written only when cancellation is
observed (a single `save`, which also creates the file on the first
cancellation — fresh-plan start does not create it), and removed only on
successful completion; every other step of `download` (and all of
`cancel_download`, which touches only the token table) performs no
state-file effect. -/
theorem state_file_touched_only_on_cancel_or_completion
    (persisted : Option DownloadState) (cl : Option ℕ)
    (id url output : String) (tok : ℕ) (tokens : Registry) (obss : List Obs)
    (out : Option (Except String Unit)) (evs : List FsEvent)
    (toks : Registry) (fin : DownloadState)
    (h : downloadRun persisted cl id url output tok tokens obss =
      RunResult.done out evs toks fin) :
    evs = [] ∨
    (∃ s, evs = [FsEvent.save s] ∧ out = some (Except.error "Paused")) ∨
    (evs = [FsEvent.removeState fin.state_file] ∧
      out = some (Except.ok ())) := by
  unfold downloadRun at h
  cases hinit : initState persisted cl id url output with
  | panic m =>
    rw [hinit] at h
    exact absurd h (by simp)
  | ok st0 =>
    rw [hinit] at h
    simp only [RunResult.done.injEq] at h
    obtain ⟨h1, h2, h3, h4⟩ := h
    subst h1; subst h2; subst h4
    exact aggLoop_events_classified st0 obss _ _ _ rfl

/-- Witness for the amended C8 at a concrete paused run. -/
theorem state_file_touched_only_on_cancel_or_completion_witness :
    [FsEvent.save ⟨"d", "u", "o", 10, 1, [⟨0, 9, 3⟩]⟩] = ([] : List FsEvent) ∨
    (∃ s, [FsEvent.save ⟨"d", "u", "o", 10, 1, [⟨0, 9, 3⟩]⟩] =
        [FsEvent.save s] ∧
      (some (Except.error "Paused") : Option (Except String Unit)) =
        some (Except.error "Paused")) ∨
    ([FsEvent.save ⟨"d", "u", "o", 10, 1, [⟨0, 9, 3⟩]⟩] =
        [FsEvent.removeState
          (⟨"d", "u", "o", 10, 1, [⟨0, 9, 3⟩]⟩ : DownloadState).state_file] ∧
      (some (Except.error "Paused") : Option (Except String Unit)) =
        some (Except.ok ())) :=
  state_file_touched_only_on_cancel_or_completion
    (some ⟨"d", "u", "o", 10, 1, [⟨0, 9, 3⟩]⟩) none "d" "u" "o" 5 []
    [⟨true, [], Except.ok ()⟩] (some (Except.error "Paused"))
    [FsEvent.save ⟨"d", "u", "o", 10, 1, [⟨0, 9, 3⟩]⟩] [("d", 5)]
    ⟨"d", "u", "o", 10, 1, [⟨0, 9, 3⟩]⟩ rfl

/-! ## C9 -/

theorem hmLookup_insert_self (k : String) (v : ℕ) (m : Registry) :
    hmLookup k (hmInsert k v m) = some v := by
  unfold hmLookup hmInsert
  simp [List.find?]

/-- C9 counterexample: a download that completes naturally leaves its
cancellation handle in the registry — `download` never removes the id's
entry from `TOKENS`, so after the successful run the registry still
contains the handle, contradicting removal on natural completion. -/
theorem token_not_removed_on_completion_cex :
    downloadRun (some ⟨"dl", "u", "o", 10, 1, [⟨0, 9, 10⟩]⟩) none "dl" "u"
        "o" 5 [] [⟨false, [none], Except.ok ()⟩] =
      RunResult.done (some (Except.ok ())) [FsEvent.removeState "o.state"]
        [("dl", 5)] ⟨"dl", "u", "o", 10, 1, [⟨0, 9, 10⟩]⟩ ∧
    hmLookup "dl" [("dl", 5)] = some 5 := by
  exact ⟨rfl, by decide⟩

/-- C9 (amended): the registry holds at most one live handle per id
(inserting a fresh handle at start silently replaces any prior one and
preserves key uniqueness); the handle is removed by `cancel(id)`; but it
is NOT removed on natural completion — after any finished `download` run
the id still maps to the handle installed at start. -/
theorem registry_one_handle_per_id :
    (∀ id v (m : Registry), (m.map Prod.fst).Nodup →
      ((hmInsert id v m).map Prod.fst).Nodup) ∧
    (∀ id v (m : Registry), hmLookup id (hmInsert id v m) = some v) ∧
    (∀ id st, hmLookup id (cancel_download id st).tokens = none) ∧
    (∀ persisted cl id url output tok tokens obss out evs toks fin,
      downloadRun persisted cl id url output tok tokens obss =
        RunResult.done out evs toks fin →
      hmLookup id toks = some tok) := by
  refine ⟨?_, fun id v m => hmLookup_insert_self id v m, ?_, ?_⟩
  · intro id v m hnd
    unfold hmInsert
    rw [List.map_cons]
    refine List.nodup_cons.mpr ⟨?_, ?_⟩
    · intro hmem
      obtain ⟨p, hp, hfst⟩ := List.mem_map.mp hmem
      have := List.of_mem_filter hp
      rw [hfst] at this
      simp at this
    · exact ((List.filter_sublist m).map Prod.fst).nodup hnd
  · intro id st
    cases h : hmLookup id st.tokens with
    | none =>
      rw [cancel_download_absent id st h]
      exact h
    | some tok =>
      unfold cancel_download
      rw [h]
      exact hmLookup_filter_self id st.tokens
  · intro persisted cl id url output tok tokens obss out evs toks fin h
    unfold downloadRun at h
    cases hinit : initState persisted cl id url output with
    | panic m =>
      rw [hinit] at h
      exact absurd h (by simp)
    | ok st0 =>
      rw [hinit] at h
      simp only [RunResult.done.injEq] at h
      rw [← h.2.2.1]
      exact hmLookup_insert_self id tok tokens

/-- Witness for the amended C9 at concrete registries and a concrete
completed run. -/
theorem registry_one_handle_per_id_witness :
    ((hmInsert "b" 2 [("a", 1)]).map Prod.fst).Nodup ∧
    hmLookup "b" (hmInsert "b" 2 []) = some 2 ∧
    hmLookup "b" (cancel_download "b" ⟨[("b", 9)], []⟩).tokens = none ∧
    hmLookup "dl" [("dl", 5)] = some 5 :=
  ⟨registry_one_handle_per_id.1 "b" 2 [("a", 1)] (by decide),
   registry_one_handle_per_id.2.1 "b" 2 [],
   registry_one_handle_per_id.2.2.1 "b" ⟨[("b", 9)], []⟩,
   registry_one_handle_per_id.2.2.2 (some ⟨"dl", "u", "o", 10, 1, [⟨0, 9, 10⟩]⟩)
     none "dl" "u" "o" 5 [] [⟨false, [none], Except.ok ()⟩]
     (some (Except.ok ())) [FsEvent.removeState "o.state"] [("dl", 5)]
     ⟨"dl", "u", "o", 10, 1, [⟨0, 9, 10⟩]⟩ rfl⟩

end Download

namespace Download

/-! ## C2 -/

theorem wsub_eq (a b : ℕ) (hb : b ≤ a) (ha : a < MOD) : wsub a b = a - b := by
  have hbM : b < MOD := lt_of_le_of_lt hb ha
  unfold wsub
  rw [Nat.mod_eq_of_lt ha, Nat.mod_eq_of_lt hbM]
  have h1 : a + (MOD - b) = MOD + (a - b) := by omega
  rw [h1, Nat.add_mod_left]
  exact Nat.mod_eq_of_lt (by omega)

theorem part_pos (total c : ℕ) (hc : 1 ≤ c) (hct : c ≤ total) :
    1 ≤ part total c := by
  rw [part]
  exact (Nat.one_le_div_iff (by omega)).mpr hct

theorem mul_part_le (total c j : ℕ) (hj : j ≤ c) :
    j * part total c ≤ total := by
  have h1 : j * part total c ≤ c * part total c := Nat.mul_le_mul_right _ hj
  have h2 : c * part total c ≤ total := by
    rw [part, mul_comm]
    exact Nat.div_mul_le_self total c
  omega

theorem buildSegments_getElem (total c : ℕ) (hc : 1 ≤ c) (hct : c ≤ total)
    (hm : total < MOD) (i : ℕ) (hi : i < c) :
    (buildSegments total c)[i]? =
      some ⟨i * part total c,
        if i = c - 1 then total - 1 else (i + 1) * part total c - 1, 0⟩ := by
  have hstart : segStart (part total c) i = i * part total c := by
    unfold segStart
    exact Nat.mod_eq_of_lt (lt_of_le_of_lt (mul_part_le total c i (by omega)) hm)
  have hend : segEnd total c (part total c) i =
      if i = c - 1 then total - 1 else (i + 1) * part total c - 1 := by
    unfold segEnd
    by_cases hlast : i = c - 1
    · rw [if_pos hlast, if_pos hlast]
      exact wsub_eq total 1 (by omega) hm
    · rw [if_neg hlast, if_neg hlast]
      have hle : (i + 1) * part total c ≤ total := mul_part_le total c (i + 1) (by omega)
      have hlt : (i + 1) * part total c < MOD := lt_of_le_of_lt hle hm
      have hp := part_pos total c hc hct
      rw [Nat.mod_eq_of_lt hlt]
      exact wsub_eq _ 1 (Nat.mul_pos (by omega) (by omega)) hlt
  unfold buildSegments
  rw [List.getElem?_map, List.getElem?_range hi]
  simp only [Option.map_some']
  rw [hstart, hend]

theorem buildSegments_getElem_eq (total c : ℕ) (hc : 1 ≤ c) (hct : c ≤ total)
    (hm : total < MOD) (i : ℕ) (hi : i < c)
    (h : i < (buildSegments total c).length) :
    (buildSegments total c)[i] =
      ⟨i * part total c,
       if i = c - 1 then total - 1 else (i + 1) * part total c - 1, 0⟩ := by
  have hq := buildSegments_getElem total c hc hct hm i hi
  rw [List.getElem?_eq_getElem h] at hq
  exact Option.some.inj hq

/-- C2 counterexample: at `total_size = 3` with the code's
`concurrency = 8`, `part = 0` and the wrapped end offsets make every
non-final segment span `[0, 2^64 - 1]`: the segments are not pairwise
disjoint and their union is not `[0, 3)`. -/
theorem fresh_partition_fails_for_small_total_cex :
    ¬ segsDisjoint (buildSegments 3 8) ∧ ¬ covers (buildSegments 3 8) 3 := by
  constructor
  · decide
  · intro h
    have hb := (h (MOD - 1)).mpr
      ⟨⟨0, MOD - 1, 0⟩, by decide, by decide, by decide⟩
    exact absurd hb (by decide)

/-- C2 (amended): for any concurrency `c ≥ 1` and any `total_size` with
`c ≤ total_size < 2^64` (so in particular the code's `c = 8` needs
`total_size ≥ 8`), the fresh-plan partition has exactly `c` segments,
segment `i` spans `[i*part, (i+1)*part - 1]` (`part = total/c`) except
the last which ends at `total - 1`, the segments are pairwise disjoint,
and their union is exactly `[0, total)`.  For `total_size < c` the
wrapped end offsets break both properties. -/
theorem fresh_partition_disjoint_cover (total c : ℕ) (hc : 1 ≤ c)
    (hct : c ≤ total) (hm : total < MOD) :
    (buildSegments total c).length = c ∧
    (∀ i, i < c → (buildSegments total c)[i]? =
      some ⟨i * part total c,
        if i = c - 1 then total - 1 else (i + 1) * part total c - 1, 0⟩) ∧
    segsDisjoint (buildSegments total c) ∧
    covers (buildSegments total c) total := by
  have hlen : (buildSegments total c).length = c := by
    unfold buildSegments
    rw [List.length_map, List.length_range]
  have hp := part_pos total c hc hct
  refine ⟨hlen, buildSegments_getElem total c hc hct hm, ?_, ?_⟩
  · rw [segsDisjoint, List.pairwise_iff_getElem]
    intro i j hi hj hij
    have hic : i < c := by rwa [hlen] at hi
    have hjc : j < c := by rwa [hlen] at hj
    rw [buildSegments_getElem_eq total c hc hct hm i hic hi,
      buildSegments_getElem_eq total c hc hct hm j hjc hj]
    left
    show (if i = c - 1 then total - 1 else (i + 1) * part total c - 1) <
      j * part total c
    rw [if_neg (show i ≠ c - 1 by omega)]
    have h1 : (i + 1) * part total c ≤ j * part total c :=
      Nat.mul_le_mul_right _ (by omega)
    have h2 : 0 < (i + 1) * part total c := Nat.mul_pos (by omega) (by omega)
    omega
  · unfold covers
    intro b
    constructor
    · intro hb
      have hic : min (b / part total c) (c - 1) < c :=
        lt_of_le_of_lt (min_le_right _ _) (by omega)
      refine ⟨⟨min (b / part total c) (c - 1) * part total c,
        if min (b / part total c) (c - 1) = c - 1 then total - 1
        else (min (b / part total c) (c - 1) + 1) * part total c - 1, 0⟩,
        List.getElem?_mem (buildSegments_getElem total c hc hct hm _ hic),
        ?_, ?_⟩
      · show min (b / part total c) (c - 1) * part total c ≤ b
        have h1 : min (b / part total c) (c - 1) * part total c ≤
            (b / part total c) * part total c :=
          Nat.mul_le_mul_right _ (min_le_left _ _)
        have h2 : (b / part total c) * part total c ≤ b :=
          Nat.div_mul_le_self b _
        omega
      · show b ≤ if min (b / part total c) (c - 1) = c - 1 then total - 1
          else (min (b / part total c) (c - 1) + 1) * part total c - 1
        by_cases hlast : min (b / part total c) (c - 1) = c - 1
        · rw [if_pos hlast]
          omega
        · rw [if_neg hlast]
          have hieq : min (b / part total c) (c - 1) = b / part total c := by
            rcases le_total (b / part total c) (c - 1) with hle | hle
            · rw [min_eq_left hle]
            · exact absurd (min_eq_right hle) hlast
          rw [hieq]
          have hdm := Nat.div_add_mod b (part total c)
          have hmod : b % part total c < part total c := Nat.mod_lt _ (by omega)
          have hexp : (b / part total c + 1) * part total c =
              (b / part total c) * part total c + part total c := by ring
          have hcomm : part total c * (b / part total c) =
              (b / part total c) * part total c := mul_comm _ _
          omega
    · rintro ⟨s, hsmem, hstart, hend⟩
      unfold buildSegments at hsmem
      obtain ⟨a, ha, rfl⟩ := List.mem_map.mp hsmem
      have hac : a < c := List.mem_range.mp ha
      have hendval : segEnd total c (part total c) a ≤ total - 1 := by
        unfold segEnd
        by_cases hlast : a = c - 1
        · rw [if_pos hlast, wsub_eq total 1 (by omega) hm]
        · rw [if_neg hlast]
          have hle : (a + 1) * part total c ≤ total :=
            mul_part_le total c (a + 1) (by omega)
          have hlt : (a + 1) * part total c < MOD := lt_of_le_of_lt hle hm
          rw [Nat.mod_eq_of_lt hlt,
            wsub_eq _ 1 (Nat.mul_pos (by omega) (by omega)) hlt]
          omega
      have hb : b ≤ segEnd total c (part total c) a := hend
      omega

/-- Witness for the amended C2 at `total_size = 20`, `concurrency = 8`. -/
theorem fresh_partition_disjoint_cover_witness :
    (buildSegments 20 8).length = 8 ∧
    segsDisjoint (buildSegments 20 8) ∧ covers (buildSegments 20 8) 20 :=
  ⟨(fresh_partition_disjoint_cover 20 8 (by decide) (by decide) (by decide)).1,
   (fresh_partition_disjoint_cover 20 8 (by decide) (by decide)
      (by decide)).2.2.1,
   (fresh_partition_disjoint_cover 20 8 (by decide) (by decide)
      (by decide)).2.2.2⟩

end Download
